import Mathlib

/-!
# Verification of the kubectl-x parallel execution and output aggregation engine

This development shallowly embeds the core of the `cmd` package:

* `formatDefaultOutput` (table aggregation, src/unnamed/part_011),
* `formatJSONOutput` / `formatYAMLOutput` (structured aggregation, src/unnamed/part_011),
* `runCommand`'s batch dispatch (src/cmd/exec.go),
* the buffered-channel admission gate (src/cmd/exec.go),
* `streamLinesFilterHeader`'s run-once header gate (src/cmd/exec.go).

Go strings are modelled as lists of characters (`Str`); `len` on a Go string is
byte length, which coincides with list length on the ASCII data these functions
manipulate.  Printing is modelled by returning the ordered list of emitted
lines, each tagged with the sink (stdout or stderr) it is written to.  Terminal
colouring (`colorizeContext`) is modelled in its non-terminal branch, where it
is the identity, since colours are disabled whenever output is inspected
programmatically.
-/

namespace KubectlX

/-- Go strings, modelled as lists of characters. -/
abbrev Str := List Char

/-- Embed a Lean string literal as a `Str`. -/
def strOf (s : String) : Str := s.data

/-- The character class recognised by Go's `unicode.IsSpace` on the ASCII range,
which is what `strings.TrimSpace` trims. -/
def goIsSpace (c : Char) : Bool :=
  c = ' ' || c = '\t' || c = '\n' || c = Char.ofNat 11 || c = Char.ofNat 12 || c = '\r'

/-- `strings.TrimSpace`: drop leading and trailing whitespace. -/
def trimSpace (s : Str) : Str :=
  ((s.dropWhile goIsSpace).reverse.dropWhile goIsSpace).reverse

/-- `strings.TrimRight(s, " ")`: drop trailing space characters. -/
def trimRightSpaces (s : Str) : Str :=
  (s.reverse.dropWhile (fun c => c = ' ')).reverse

/-- `strings.Split(s, "\n")`. -/
def splitNL : Str → List Str
  | [] => [[]]
  | c :: rest =>
    match splitNL rest with
    | [] => if c = '\n' then [[], []] else [[c]]
    | h :: t => if c = '\n' then [] :: h :: t else (c :: h) :: t

/-- A column-separator character for the regexp `[ \t]{2,}` used by
`parseColumns` in `formatDefaultOutput`. -/
def isSepChar (c : Char) : Bool := c = ' ' || c = '\t'

/-- Splitting on each (leftmost, greedy, hence maximal) match of the regexp
`[ \t]{2,}`: a run of two or more separator characters ends the current part,
while a single separator character stays inside it.  `acc` is the reversed
content of the current part, `run` the reversed pending separator run. -/
def splitColsAux : List Char → List Char → List Char → List Str
  | [], acc, run =>
    if 2 ≤ run.length then [acc.reverse, []]
    else [(run ++ acc).reverse]
  | c :: rest, acc, run =>
    if isSepChar c then
      splitColsAux rest acc (c :: run)
    else
      if 2 ≤ run.length then
        acc.reverse :: splitColsAux rest [c] []
      else
        splitColsAux rest (c :: run ++ acc) []

/-- The column splitter used by `parseColumns`:
`columnSeparator.Split(line, -1)` for the regexp `[ \t]{2,}`. -/
def splitCols (line : Str) : List Str := splitColsAux line [] []

/-- `parseColumns` from `formatDefaultOutput`: split the line on runs of two or
more spaces/tabs, trim each part, and keep only the non-empty parts. -/
def parseColumns (line : Str) : List Str :=
  ((splitCols line).map trimSpace).filter (fun p => p ≠ [])

/-! ## Data model -/

/-- `contextResult` from src/cmd/exec.go: one context's captured run.
`err = some msg` models a non-nil Go error whose `Error()` text is `msg`. -/
structure ContextResult where
  context : Str
  output : Str
  err : Option Str
deriving DecidableEq

/-- The per-context record `outputData` built by `formatDefaultOutput`'s first
pass. -/
structure OutputData where
  context : Str
  lines : List Str
  columns : List (List Str)
  err : Option Str
  errMsg : Str
deriving DecidableEq

/-- An emission sink: stdout (`fmt.Printf`) or stderr (`fmt.Fprintf(os.Stderr, ...)`). -/
inductive Channel where
  | out
  | err
deriving DecidableEq, Repr

/-- One emitted line (without its trailing newline), tagged with its sink. -/
abbrev Event := Channel × Str

/-! ## Table aggregator (`formatDefaultOutput`, src/unnamed/part_011) -/

/-- The first pass of `formatDefaultOutput`: build `allOutputs` and
`maxContextWidth` (initialised to `len("CONTEXT")`).  A result with an error
is recorded with its message; a result with empty trimmed output is dropped
before the width update; otherwise lines are split and parsed into columns
(blank lines parse to the nil slice). -/
def buildStep (st : List OutputData × Nat) (result : ContextResult) :
    List OutputData × Nat :=
  match result.err with
  | some e =>
    (st.1 ++ [{ context := result.context, lines := [], columns := [],
                err := some e, errMsg := result.output }],
     max st.2 result.context.length)
  | none =>
    let output := trimSpace result.output
    if output = [] then st
    else
      let lines := splitNL output
      if lines.length = 0 then st
      else
        let columns := lines.map (fun line =>
          let trimmed := trimSpace line
          if trimmed = [] then [] else parseColumns trimmed)
        (st.1 ++ [{ context := result.context, lines := lines,
                    columns := columns, err := none, errMsg := [] }],
         max st.2 result.context.length)

def buildOutputs (results : List ContextResult) : List OutputData × Nat :=
  results.foldl buildStep ([], (strOf "CONTEXT").length)

/-- Header detection: the first entry of `allOutputs` with no error, more than
one parsed line, and a non-empty first row of columns supplies the header. -/
def headerOf (allOutputs : List OutputData) : Option (List Str) :=
  match allOutputs.find? (fun d =>
    d.err.isNone && decide (1 < d.columns.length) &&
      decide (0 < (d.columns.headI).length)) with
  | some d => some d.columns.headI
  | none => none

/-- The row index a context's data starts at: the first line is skipped exactly
when a header was found and this context has more than one parsed line. -/
def startIdx (headerFound : Bool) (d : OutputData) : Nat :=
  if headerFound ∧ 1 < d.columns.length then 1 else 0

/-- The inner loop of the width computation: `for i, col := range row`,
bumping `maxColumnWidths[i]` to `len(trimmed)` when the trimmed column is
non-empty and longer than the recorded width.  `i` is the loop index. -/
def bumpRowAux (m : Nat → Nat) (i : Nat) : List Str → (Nat → Nat)
  | [] => m
  | col :: rest =>
    let trimmed := trimSpace col
    let m1 := if trimmed ≠ [] ∧ m i < trimmed.length
      then (fun j => if j = i then trimmed.length else m j) else m
    bumpRowAux m1 (i + 1) rest

/-- Bump the width map with one row of columns. -/
def bumpRow (m : Nat → Nat) (row : List Str) : Nat → Nat := bumpRowAux m 0 row

/-- One context's contribution to the width computation (the second pass of
`formatDefaultOutput`): an errored context is skipped; otherwise its rows from
`startIdx` on are folded in. -/
def widthStep (headerFound : Bool) (m : Nat → Nat) (d : OutputData) : Nat → Nat :=
  if d.err.isSome then m
  else (d.columns.drop (startIdx headerFound d)).foldl bumpRow m

def computeWidths (headerFound : Bool) (headerColumns : List Str)
    (allOutputs : List OutputData) : Nat → Nat :=
  let m0 : Nat → Nat := fun _ => 0
  let m1 := if headerFound then bumpRow m0 headerColumns else m0
  allOutputs.foldl (widthStep headerFound) m1

/-- The padded rendering of one column at loop index `i`:
`width := maxColumnWidths[i]; if width == 0 { width = len(col) };
col + strings.Repeat(" ", width-len(col))`.  The subtraction is modelled on
`Nat`; `padCountsRowAux` below records the `Int` value Go would pass to
`strings.Repeat`. -/
def padCol (m : Nat → Nat) (i : Nat) (col : Str) : Str :=
  let width := if m i = 0 then col.length else m i
  col ++ List.replicate (width - col.length) ' '

/-- The `for i, col := range columns` loop of `formatColumns`, collecting the
padded parts; `i` is the loop index. -/
def formatColsAux (m : Nat → Nat) (i : Nat) : List Str → List Str
  | [] => []
  | col :: rest => padCol m i col :: formatColsAux m (i + 1) rest

/-- The `formatColumns` closure: pad every column to its shared width, join
with four spaces, and trim trailing spaces. -/
def formatColumns (m : Nat → Nat) (columns : List Str) : Str :=
  trimRightSpaces (List.intercalate (strOf "    ") (formatColsAux m 0 columns))

/-- The events contributed by one `allOutputs` entry in the final loop of
`formatDefaultOutput`: an errored context writes its diagnostic (and its
captured output, when non-empty) to stderr; a successful context writes one
stdout line per non-empty row from its `startIdx` on.  `colorizeContext` is
the identity here (non-terminal branch). -/
def renderData (maxContextWidth : Nat) (m : Nat → Nat) (headerFound : Bool)
    (d : OutputData) : List Event :=
  match d.err with
  | some e =>
    (Channel.err, strOf "Context " ++ d.context ++ strOf ": Error: " ++ e) ::
      (if d.errMsg ≠ [] then [(Channel.err, strOf "Output: " ++ d.errMsg)] else [])
  | none =>
    let contextPadding := List.replicate (maxContextWidth - d.context.length) ' '
    (d.columns.drop (startIdx headerFound d)).filterMap (fun row =>
      if row.length = 0 then none
      else some (Channel.out,
        d.context ++ contextPadding ++ strOf "  " ++ formatColumns m row))

/-- `formatDefaultOutput` (src/unnamed/part_011): the ordered list of lines the
table aggregator emits, each tagged with its sink.  The Go function always
returns `nil`; its observable behaviour is this event list. -/
def formatDefaultOutput (results : List ContextResult) : List Event :=
  let st := buildOutputs results
  let allOutputs := st.1
  let maxContextWidth := st.2
  let hdr := headerOf allOutputs
  let headerFound := hdr.isSome
  let headerColumns := hdr.getD []
  let m := computeWidths headerFound headerColumns allOutputs
  (if headerFound then
    [(Channel.out,
      strOf "CONTEXT" ++ List.replicate (maxContextWidth - (strOf "CONTEXT").length) ' '
        ++ strOf "  " ++ formatColumns m headerColumns)]
   else []) ++
  allOutputs.flatMap (renderData maxContextWidth m headerFound)

/-! ## Structured aggregator (`formatJSONOutput` / `formatYAMLOutput`,
src/unnamed/part_011)

Go unmarshals into `map[string]interface{}` / `[]interface{}` trees; these are
modelled by `JVal`, with objects as association lists carrying Go's map
semantics through `lookupKey` / `setKey`.  The library calls
`json.Unmarshal` and `yaml.Unmarshal` are external; both aggregation
functions are therefore parameterised by the decoder
`parse : Str → Option JObj` (`none` models a decode error), which is the only
place the two functions differ — their aggregation logic is otherwise
line-for-line identical, so one definition embeds both. -/

/-- A decoded structured value (`interface{}` after unmarshalling). -/
inductive JVal where
  | null
  | bool (b : Bool)
  | num (n : Int)
  | str (s : Str)
  | arr (elems : List JVal)
  | obj (fields : List (Str × JVal))

/-- A decoded object: `map[string]interface{}`. -/
abbrev JObj := List (Str × JVal)

/-- Go map read `o[k]`. -/
def lookupKey (o : JObj) (k : Str) : Option JVal :=
  match o.find? (fun p => p.1 = k) with
  | some p => some p.2
  | none => none

/-- Go map write `o[k] = v`: overwrite an existing binding, else add one. -/
def setKey (o : JObj) (k : Str) (v : JVal) : JObj :=
  if o.any (fun p => p.1 = k) then
    o.map (fun p => if p.1 = k then (k, v) else p)
  else o ++ [(k, v)]

/-- The context tag injected into one element of an `items` array:
if the element's `metadata` is an object, set its `context` key (in place);
otherwise replace `metadata` by a fresh object holding only `context`. -/
def injectMeta (itemMap : JObj) (context : Str) : JObj :=
  match lookupKey itemMap (strOf "metadata") with
  | some (JVal.obj m) =>
    setKey itemMap (strOf "metadata") (JVal.obj (setKey m (strOf "context") (JVal.str context)))
  | _ => setKey itemMap (strOf "metadata") (JVal.obj [(strOf "context", JVal.str context)])

/-- The loop body of `formatJSONOutput`/`formatYAMLOutput` for one result: the
objects it appends to `allItems` and the stderr lines it emits.  An errored
result is reported, and its output — when non-empty and decodable — is kept
with `context` and `error` keys set; a decode failure on a successful result
is reported and skipped; a decoded `items` array contributes its object
elements (non-object elements are dropped) with the context injected into
their metadata; any other decoded object contributes itself, tagged in its
`metadata` object when that exists, else at top level.  (The stderr text for
a decode failure omits the library's error detail, which `parse` does not
model.) -/
def structuredItemsFor (parse : Str → Option JObj) (result : ContextResult) :
    List JObj × List Event :=
  match result.err with
  | some e =>
    let evs : List Event :=
      [(Channel.err, strOf "Context " ++ result.context ++ strOf ": Error: " ++ e)]
    if result.output ≠ [] then
      match parse result.output with
      | some errorData =>
        ([setKey (setKey errorData (strOf "context") (JVal.str result.context))
            (strOf "error") (JVal.str e)], evs)
      | none => ([], evs)
    else ([], evs)
  | none =>
    match parse result.output with
    | none =>
      ([], [(Channel.err, strOf "Context " ++ result.context ++ strOf ": Failed to parse")])
    | some data =>
      match lookupKey data (strOf "items") with
      | some (JVal.arr items) =>
        (items.filterMap (fun item =>
          match item with
          | JVal.obj itemMap => some (injectMeta itemMap result.context)
          | _ => none), [])
      | some _ => ([], [])
      | none =>
        match lookupKey data (strOf "metadata") with
        | some (JVal.obj m) =>
          ([setKey data (strOf "metadata")
              (JVal.obj (setKey m (strOf "context") (JVal.str result.context)))], [])
        | _ => ([setKey data (strOf "context") (JVal.str result.context)], [])

/-- `formatJSONOutput` and `formatYAMLOutput`: fold the loop body over the
results in order, then wrap the accumulated items in the combined
`{apiVersion: "v1", kind: "List", items: [...]}` document.  Returns the
document and the ordered stderr diagnostics. -/
def structuredStep (parse : Str → Option JObj) (acc : List JObj × List Event)
    (result : ContextResult) : List JObj × List Event :=
  let contrib := structuredItemsFor parse result
  (acc.1 ++ contrib.1, acc.2 ++ contrib.2)

def formatStructuredOutput (parse : Str → Option JObj) (results : List ContextResult) :
    JObj × List Event :=
  let folded := results.foldl (structuredStep parse) ([], [])
  ([(strOf "apiVersion", JVal.str (strOf "v1")),
    (strOf "kind", JVal.str (strOf "List")),
    (strOf "items", JVal.arr (folded.1.map JVal.obj))], folded.2)

/-- The `items` array of the combined document. -/
def itemsOf (doc : JObj) : List JVal :=
  match lookupKey doc (strOf "items") with
  | some (JVal.arr elems) => elems
  | _ => []

/-! ## Batch dispatch (`runCommand`, src/cmd/exec.go)

Each of the `N` goroutines computes its context's result and stores it at the
slot of the context's original index: `results[index] = contextResult{...}`.
The slots are disjoint, so the only scheduling freedom that can affect the
final slice is the order in which the stores happen; a schedule is that order,
as a permutation of the indices.  `runner i` gives the `(output, err)` pair
the process run for context `i` produced. -/

/-- The store `results[index] = contextResult{context, output, err}` executed
by the goroutine for index `i`. -/
def storeResult (contexts : List Str) (runner : Nat → Str × Option Str)
    (results : List (Option ContextResult)) (i : Nat) : List (Option ContextResult) :=
  results.set i (some { context := contexts.getD i [],
                        output := (runner i).1, err := (runner i).2 })

/-- The batch run: a pre-sized slice of empty slots, written once per task in
schedule order, read only after the `wg.Wait()` join. -/
def runBatch (contexts : List Str) (runner : Nat → Str × Option Str)
    (schedule : List Nat) : List (Option ContextResult) :=
  schedule.foldl (storeResult contexts runner) (List.replicate contexts.length none)

/-! ## Admission gate (`semaphore := make(chan struct{}, batchSize)`,
src/cmd/exec.go)

A worker holds an admission slot between `semaphore <- struct{}{}` and
`<-semaphore`.  The buffered channel accepts a send only while it holds fewer
than `batchSize` values, and each receive removes one, so the channel
occupancy equals the number of holders.  The transition system below is that
channel semantics; worker bodies between acquire and release are abstracted
away, since only slot-holding counts matter to the bound. -/

/-- A worker's progress through `runCommand`'s goroutine body. -/
inductive Phase where
  | pending
  | holding
  | finished
deriving DecidableEq

/-- The shared state: each worker's phase and the semaphore channel's
occupancy. -/
structure GateState where
  phases : List Phase
  sem : Nat
deriving DecidableEq

/-- Initial state: `N` workers launched, none holding a slot, channel empty. -/
def gateInit (n : Nat) : GateState :=
  { phases := List.replicate n Phase.pending, sem := 0 }

/-- One scheduler step: a pending worker's `semaphore <- struct{}{}` completes
only while the buffer is below capacity `b`; a holding worker's `<-semaphore`
always can. -/
inductive GateStep (b : Nat) : GateState → GateState → Prop
  | acquire (s : GateState) (i : Nat) :
      s.phases.get? i = some Phase.pending → s.sem < b →
      GateStep b s { phases := s.phases.set i Phase.holding, sem := s.sem + 1 }
  | release (s : GateState) (i : Nat) :
      s.phases.get? i = some Phase.holding →
      GateStep b s { phases := s.phases.set i Phase.finished, sem := s.sem - 1 }

/-- Reachability of a state from the launch of `n` workers under capacity `b`. -/
def gateReachable (b n : Nat) (s : GateState) : Prop :=
  Relation.ReflTransGen (GateStep b) (gateInit n) s

/-- The number of workers currently holding an admission slot. -/
def holdingCount (s : GateState) : Nat :=
  s.phases.countP (fun p => p = Phase.holding)

/-! ## Streaming header gate (`streamLinesFilterHeader` with
`runStreamingCommand`'s shared `headerOnce`, src/cmd/exec.go)

Each context contributes one stream of scanned lines.  The per-sink mutex
makes every line write atomic, so a run is an interleaving of whole-line
steps; a schedule lists which stream advances at each step.  Every stream
swallows its own first line; the shared `sync.Once` prints the unified header
for whichever stream reaches it first. -/

/-- One emitted line of the streaming multiplexer: the unified header printed
inside `headerOnce.Do`, or a context-prefixed data line. -/
inductive StreamEvent where
  | header (line : Str)
  | data (context : Str) (line : Str)
deriving DecidableEq

/-- The multiplexer state: for every context its prefix label and remaining
lines, the per-stream `firstLine` flags, the shared `headerOnce` flag, and the
lines emitted so far, oldest first. -/
structure StreamState where
  streams : List (Str × List Str)
  firstFlags : List Bool
  fired : Bool
  emitted : List StreamEvent
deriving DecidableEq

/-- The start state for the given per-context streams. -/
def streamInit (streams : List (Str × List Str)) : StreamState :=
  { streams := streams, firstFlags := streams.map (fun _ => true),
    fired := false, emitted := [] }

/-- One `scanner.Scan()` iteration of stream `i` (a no-op when stream `i` is
exhausted or absent — such schedule entries model goroutines that merely poll):
the first scanned line runs `headerOnce.Do` (printing the unified header only
if no stream has yet) and is otherwise suppressed; later lines are emitted
with the context prefix. -/
def streamStep (contextHeader : Str) (s : StreamState) (i : Nat) : StreamState :=
  match s.streams.get? i with
  | none => s
  | some (label, lines) =>
    match lines with
    | [] => s
    | line :: rest =>
      let streams1 := s.streams.set i (label, rest)
      if s.firstFlags.getD i true then
        let flags1 := s.firstFlags.set i false
        if s.fired then
          { streams := streams1, firstFlags := flags1, fired := true, emitted := s.emitted }
        else
          { streams := streams1, firstFlags := flags1, fired := true,
            emitted := s.emitted ++ [StreamEvent.header (contextHeader ++ strOf "  " ++ line)] }
      else
        { streams := streams1, firstFlags := s.firstFlags, fired := s.fired,
          emitted := s.emitted ++ [StreamEvent.data label (label ++ strOf "  " ++ line)] }

/-- Run a whole schedule of interleaved scan steps. -/
def runStream (contextHeader : Str) (streams : List (Str × List Str))
    (schedule : List Nat) : StreamState :=
  schedule.foldl (streamStep contextHeader) (streamInit streams)

/-- How many unified header lines a run emitted. -/
def headerCount (evs : List StreamEvent) : Nat :=
  evs.countP (fun e => match e with | StreamEvent.header _ => true | _ => false)

/-- How many context-prefixed data lines a run emitted. -/
def dataCount (evs : List StreamEvent) : Nat :=
  evs.countP (fun e => match e with | StreamEvent.data _ _ => true | _ => false)

/-! ## Theorems -/

/-! ### C1: batch dispatch is index-stable -/

theorem runBatch_foldl_length (schedule : List Nat) (contexts : List Str)
    (runner : Nat → Str × Option Str) (res : List (Option ContextResult)) :
    (schedule.foldl (storeResult contexts runner) res).length = res.length := by
  induction schedule generalizing res with
  | nil => rfl
  | cons j rest ih =>
    simp only [List.foldl_cons]
    rw [ih]
    simp [storeResult]

theorem runBatch_foldl_not_mem (schedule : List Nat) (contexts : List Str)
    (runner : Nat → Str × Option Str) (res : List (Option ContextResult)) (i : Nat)
    (hi : i ∉ schedule) :
    (schedule.foldl (storeResult contexts runner) res).get? i = res.get? i := by
  induction schedule generalizing res with
  | nil => rfl
  | cons j rest ih =>
    simp only [List.foldl_cons]
    rw [ih _ (fun h => hi (List.mem_cons_of_mem j h))]
    exact List.get?_set_ne _ _ (fun h => hi (h ▸ List.mem_cons_self j rest))

theorem runBatch_foldl_mem (schedule : List Nat) (contexts : List Str)
    (runner : Nat → Str × Option Str) (res : List (Option ContextResult)) (i : Nat)
    (hmem : i ∈ schedule) (hlt : i < res.length) :
    (schedule.foldl (storeResult contexts runner) res).get? i =
      some (some { context := contexts.getD i [],
                   output := (runner i).1, err := (runner i).2 }) := by
  induction schedule generalizing res with
  | nil => cases hmem
  | cons j rest ih =>
    simp only [List.foldl_cons]
    by_cases hrest : i ∈ rest
    · exact ih _ hrest (by simpa [storeResult] using hlt)
    · have hij : i = j := by
        rcases List.mem_cons.mp hmem with h | h
        · exact h
        · exact absurd h hrest
      subst hij
      rw [runBatch_foldl_not_mem rest contexts runner _ i hrest]
      simp only [storeResult]
      rw [List.get?_set_eq_of_lt _ hlt]

/-- C1: batch dispatch is index-stable.  For every non-empty context list and
every order in which the per-context goroutines perform their
`results[index] = contextResult{...}` stores (any permutation of the indices),
the slice observed after the `wg.Wait()` join holds, at every index `i`, the
result produced by the run for `contexts[i]`: its context name, its output
`(runner i).1` and its error `(runner i).2`. -/
theorem batch_dispatch_index_stable (contexts : List Str)
    (runner : Nat → Str × Option Str) (schedule : List Nat)
    (hne : contexts ≠ [])
    (hperm : schedule.Perm (List.range contexts.length)) :
    ∀ i, i < contexts.length →
      (runBatch contexts runner schedule).get? i =
        some (some { context := contexts.getD i [],
                     output := (runner i).1, err := (runner i).2 }) := by
  intro i hi
  have hmem : i ∈ schedule := hperm.mem_iff.mpr (List.mem_range.mpr hi)
  exact runBatch_foldl_mem schedule contexts runner _ i hmem (by simpa using hi)

/-- Witness for C1 at a concrete batch: two contexts whose stores complete in
reversed order still land at their own indices. -/
theorem batch_dispatch_index_stable_witness :
    (runBatch [strOf "alpha", strOf "beta"]
        (fun i => (if i = 0 then strOf "outA" else strOf "outB",
                   if i = 0 then none else some (strOf "boom")))
        [1, 0]).get? 0 =
      some (some { context := strOf "alpha", output := strOf "outA", err := none }) := by
  have h := batch_dispatch_index_stable [strOf "alpha", strOf "beta"]
    (fun i => (if i = 0 then strOf "outA" else strOf "outB",
               if i = 0 then none else some (strOf "boom")))
    [1, 0] (by decide) (by decide) 0 (by decide)
  simpa using h

/-! ### C7: the admission gate bounds concurrent holders -/

theorem countP_set_balance {α : Type} (p : α → Bool) (l : List α) (i : Nat) (a x : α)
    (h : l.get? i = some x) :
    (l.set i a).countP p + (if p x then 1 else 0) =
      l.countP p + (if p a then 1 else 0) := by
  induction l generalizing i with
  | nil => simp at h
  | cons y t ih =>
    cases i with
    | zero =>
      simp only [List.get?_cons_zero, Option.some_inj] at h
      subst h
      simp only [List.set_cons_zero, List.countP_cons]
      omega
    | succ k =>
      simp only [List.get?_cons_succ] at h
      have := ih k h
      simp only [List.set_cons_succ, List.countP_cons]
      omega

/-- The inductive invariant of the admission gate: the channel occupancy equals
the number of holders and never exceeds the capacity. -/
theorem gate_invariant (b n : Nat) (s : GateState) (h : gateReachable b n s) :
    holdingCount s = s.sem ∧ s.sem ≤ b := by
  induction h with
  | refl =>
    constructor
    · simp only [holdingCount, gateInit]
      rw [List.countP_eq_zero.mpr]
      intro p hp
      have := List.eq_of_mem_replicate hp
      subst this
      decide
    · exact Nat.zero_le b
  | @tail t u hsteps hstep ih =>
    cases hstep with
    | acquire i hget hlt =>
      have hbal := countP_set_balance (fun p => p = Phase.holding)
        t.phases i Phase.holding Phase.pending hget
      simp only [holdingCount] at ih ⊢
      constructor
      · simp at hbal
        omega
      · omega
    | release i hget =>
      have hbal := countP_set_balance (fun p => p = Phase.holding)
        t.phases i Phase.finished Phase.holding hget
      simp only [holdingCount] at ih ⊢
      constructor
      · simp at hbal
        omega
      · omega

/-- C7: admission-gate bound.  With capacity `b ≥ 1`, in every state reachable
from the launch of `n` workers, at most `b` workers hold an admission slot —
at most `b` child-process invocations are in flight. -/
theorem admission_gate_bound (b n : Nat) (hb : 1 ≤ b) (s : GateState)
    (h : gateReachable b n s) : holdingCount s ≤ b := by
  have := gate_invariant b n s h
  omega

/-- Witness for C7: with capacity 1 and two workers, the state after worker 0
acquires its slot is reachable and within the bound. -/
theorem admission_gate_bound_witness :
    holdingCount { phases := [Phase.holding, Phase.pending], sem := 1 } ≤ 1 := by
  have hstep : GateStep 1 (gateInit 2)
      { phases := [Phase.holding, Phase.pending], sem := 1 } := by
    have h := GateStep.acquire (b := 1) (gateInit 2) 0 (by decide) (by decide)
    simpa [gateInit] using h
  exact admission_gate_bound 1 2 (by decide)
    { phases := [Phase.holding, Phase.pending], sem := 1 }
    (Relation.ReflTransGen.single hstep)

/-! ### C9: streaming header de-duplication -/

/-- The number of data lines the remaining streams will still not account for:
for each context, consumed lines beyond the first. -/
def sumDataTarget : List (Str × List Str) → List (Str × List Str) → Nat
  | a :: S, b :: T => (a.2.length - b.2.length - 1) + sumDataTarget S T
  | _, _ => 0

theorem sumDataTarget_set (S : List (Str × List Str)) (i : Nat)
    (sv tv x : Str × List Str) :
    ∀ T : List (Str × List Str), S.get? i = some sv → T.get? i = some tv →
    sumDataTarget S (T.set i x) + (sv.2.length - tv.2.length - 1) =
      sumDataTarget S T + (sv.2.length - x.2.length - 1) := by
  induction S generalizing i with
  | nil => intro T hS; simp at hS
  | cons a S ih =>
    intro T hS hT
    cases T with
    | nil => simp at hT
    | cons b T =>
      cases i with
      | zero =>
        simp only [List.get?_cons_zero, Option.some_inj] at hS hT
        subst hS; subst hT
        simp [sumDataTarget]
        omega
      | succ k =>
        simp only [List.get?_cons_succ] at hS hT
        have := ih k T hS hT
        simp [sumDataTarget, List.set_cons_succ]
        omega

theorem sumDataTarget_final (S T : List (Str × List Str))
    (hlen : T.length = S.length) (hempty : ∀ p ∈ T, p.2 = []) :
    sumDataTarget S T = (S.map (fun p => p.2.length - 1)).sum := by
  induction S generalizing T with
  | nil => cases T <;> simp [sumDataTarget]
  | cons a S ih =>
    cases T with
    | nil => simp at hlen
    | cons b T =>
      have hb := hempty b (List.mem_cons_self b T)
      simp only [List.length_cons, Nat.succ_inj] at hlen
      simp only [sumDataTarget, List.map_cons, List.sum_cons, hb, List.length_nil]
      rw [ih T hlen (fun p hp => hempty p (List.mem_cons_of_mem b hp))]
      omega

/-- The inductive invariant of a streaming run over initial streams `S`:
every stream has consumed a prefix of its lines, its `firstLine` flag records
whether that prefix is empty, the `headerOnce` flag records whether any stream
has consumed anything, exactly one header line has been emitted iff the gate
fired — and it carries the first line of the stream that fired it — and the
data lines emitted are each stream's consumption beyond its first line. -/
def StreamInv (contextHeader : Str) (S : List (Str × List Str)) (s : StreamState) : Prop :=
  s.streams.length = S.length ∧
  s.firstFlags.length = S.length ∧
  (∀ i lab lines, S.get? i = some (lab, lines) →
    ∃ c, c ≤ lines.length ∧ s.streams.get? i = some (lab, lines.drop c) ∧
      s.firstFlags.get? i = some (decide (c = 0))) ∧
  (s.fired = false ↔
    ∀ i lab lines, S.get? i = some (lab, lines) → s.streams.get? i = some (lab, lines)) ∧
  headerCount s.emitted = (if s.fired then 1 else 0) ∧
  dataCount s.emitted = sumDataTarget S s.streams ∧
  (∀ l, StreamEvent.header l ∈ s.emitted →
    ∃ lab lines l0, (lab, lines) ∈ S ∧ lines.head? = some l0 ∧
      l = contextHeader ++ strOf "  " ++ l0)

theorem streamInv_start (contextHeader : Str) (S : List (Str × List Str)) :
    StreamInv contextHeader S (streamInit S) := by
  refine ⟨by simp [streamInit], by simp [streamInit], ?_, ?_, ?_, ?_, ?_⟩
  · intro i lab lines hS
    refine ⟨0, Nat.zero_le _, by simpa [streamInit] using hS, ?_⟩
    simp only [streamInit]
    rw [List.get?_map, hS]
    rfl
  · simp [streamInit]
  · simp [streamInit, headerCount]
  · simp only [streamInit, dataCount, List.countP_nil]
    induction S with
    | nil => rfl
    | cons a S ih =>
      simp only [sumDataTarget] at ih ⊢
      omega
  · simp [streamInit]

theorem streamInv_step (contextHeader : Str) (S : List (Str × List Str))
    (s : StreamState) (i : Nat) (hinv : StreamInv contextHeader S s) :
    StreamInv contextHeader S (streamStep contextHeader s i) := by
  obtain ⟨hlen, hflen, hidx, hfired, hhc, hdc, hhdr⟩ := hinv
  by_cases hi : i < S.length
  case neg =>
    have hnone : s.streams.get? i = none :=
      List.get?_eq_none.mpr (by omega)
    simp only [streamStep, hnone]
    exact ⟨hlen, hflen, hidx, hfired, hhc, hdc, hhdr⟩
  case pos =>
    have hSsome : ∃ q, S.get? i = some q := by
      cases hq : S.get? i with
      | none => exact absurd (List.get?_eq_none.mp hq) (by omega)
      | some q => exact ⟨q, rfl⟩
    obtain ⟨⟨lab0, lines0⟩, hS⟩ := hSsome
    obtain ⟨c, hc, hrem, hflag⟩ := hidx i lab0 lines0 hS
    have hmemS : (lab0, lines0) ∈ S := List.get?_mem hS
    simp only [streamStep, hrem]
    cases hdrop : lines0.drop c with
    | nil =>
      simp only [hdrop]
      exact ⟨hlen, hflen, hidx, hfired, hhc, hdc, hhdr⟩
    | cons line rest =>
      simp only [hdrop]
      have hgetD : s.firstFlags.getD i true = decide (c = 0) := by
        rw [List.getD_eq_get?, hflag]
        rfl
      have hdroplen : lines0.length - c = rest.length + 1 := by
        have := List.length_drop c lines0
        rw [hdrop] at this
        simpa using this.symm
      have hrest : lines0.drop (c + 1) = rest := by
        rw [← List.tail_drop, hdrop]
        rfl
      have hcl : c < lines0.length := by omega
      have hsl : i < s.streams.length := by omega
      have hfl : i < s.firstFlags.length := by omega
      have hlen1 : (s.streams.set i (lab0, rest)).length = S.length := by
        simp [hlen]
      have hne1 : ¬ (s.streams.set i (lab0, rest)).get? i = some (lab0, lines0) := by
        rw [List.get?_set_eq_of_lt _ hsl]
        intro h
        have := congrArg (fun o => (Option.map (fun p => p.2.length) o)) h
        simp at this
        omega
      have hnofire : ∀ f e, StreamInv contextHeader S
          { streams := s.streams.set i (lab0, rest), firstFlags := f,
            fired := true, emitted := e } →
          True := fun _ _ _ => trivial
      clear hnofire
      -- the sum changes by the new data contribution at index i
      have hsum := sumDataTarget_set S i (lab0, lines0) (lab0, lines0.drop c)
        (lab0, rest) s.streams hS hrem
      dsimp only at hsum
      have hsumlen : (lines0.drop c).length = lines0.length - c := List.length_drop c lines0
      by_cases hc0 : c = 0
      · -- first line of this stream: the run-once gate is exercised
        subst hc0
        simp only [Nat.zero_add] at hrest
        have hlines0 : lines0 = line :: rest := by simpa using hdrop
        have hflagT : s.firstFlags.getD i true = true := by rw [hgetD]; rfl
        rw [hflagT]
        simp only [eq_self_iff_true, if_true]
        have hidx1 : ∀ j lab lines, S.get? j = some (lab, lines) →
            ∃ c2, c2 ≤ lines.length ∧
              (s.streams.set i (lab0, rest)).get? j = some (lab, lines.drop c2) ∧
              (s.firstFlags.set i false).get? j = some (decide (c2 = 0)) := by
          intro j lab lines hSj
          by_cases hji : j = i
          · subst hji
            rw [hS] at hSj
            obtain ⟨rfl, rfl⟩ : lab0 = lab ∧ lines0 = lines := by
              exact ⟨congrArg Prod.fst (Option.some_inj.mp hSj),
                     congrArg Prod.snd (Option.some_inj.mp hSj)⟩
            refine ⟨1, by omega, ?_, ?_⟩
            · rw [List.get?_set_eq_of_lt _ hsl, hrest]
            · rw [List.get?_set_eq_of_lt _ hfl]
              rfl
          · obtain ⟨c2, hc2, hr2, hf2⟩ := hidx j lab lines hSj
            exact ⟨c2, hc2, by rwa [List.get?_set_ne _ _ (fun h => hji h.symm)],
                   by rwa [List.get?_set_ne _ _ (fun h => hji h.symm)]⟩
        have hfired1 :
            ((true : Bool) = false ↔
              ∀ j lab lines, S.get? j = some (lab, lines) →
                (s.streams.set i (lab0, rest)).get? j = some (lab, lines)) := by
          constructor
          · intro h; cases h
          · intro h
            exact absurd (h i lab0 lines0 hS) hne1
        have hsum0 : sumDataTarget S (s.streams.set i (lab0, rest)) =
            sumDataTarget S s.streams := by
          simp only [hlines0] at hsum hsumlen ⊢
          simp only [List.drop_zero] at hsum
          simp only [List.length_cons] at hsum
          omega
        cases hf : s.fired with
        | true =>
          simp only [eq_self_iff_true, if_true]
          refine ⟨hlen1, by simp [hflen], hidx1, hfired1, ?_, ?_, ?_⟩
          · dsimp only
            rw [hf] at hhc
            simpa using hhc
          · dsimp only
            rw [hsum0]
            exact hdc
          · exact hhdr
        | false =>
          simp only [Bool.false_eq_true, if_false]
          refine ⟨hlen1, by simp [hflen], hidx1, hfired1, ?_, ?_, ?_⟩
          · dsimp only
            have h0 : headerCount s.emitted = 0 := by
              rw [hf] at hhc
              simpa using hhc
            have h1 : headerCount (s.emitted ++
                [StreamEvent.header (contextHeader ++ strOf "  " ++ line)]) =
                headerCount s.emitted + 1 := by
              simp [headerCount, List.countP_append]
            rw [h1, h0]
            decide
          · dsimp only
            have h1 : dataCount (s.emitted ++
                [StreamEvent.header (contextHeader ++ strOf "  " ++ line)]) =
                dataCount s.emitted := by
              simp [dataCount, List.countP_append]
            rw [h1, hdc]
            exact hsum0.symm
          · intro l hl
            rcases List.mem_append.mp hl with h | h
            · exact hhdr l h
            · simp only [List.mem_singleton] at h
              obtain rfl : l = contextHeader ++ strOf "  " ++ line := by
                cases h; rfl
              exact ⟨lab0, lines0, line, hmemS, by rw [hlines0]; rfl, rfl⟩
      · -- a later line of this stream: emitted with the context prefix
        have hflagF : s.firstFlags.getD i true = false := by
          rw [hgetD]; simp [hc0]
        rw [hflagF]
        simp only [Bool.false_eq_true, if_false]
        have hfiredT : s.fired = true := by
          cases hf : s.fired with
          | true => rfl
          | false =>
            have hall := hfired.mp hf
            have := hall i lab0 lines0 hS
            rw [hrem] at this
            have hlendrop := congrArg (fun o => (Option.map (fun p => p.2.length) o)) this
            simp at hlendrop
            omega
        have hidx1 : ∀ j lab lines, S.get? j = some (lab, lines) →
            ∃ c2, c2 ≤ lines.length ∧
              (s.streams.set i (lab0, rest)).get? j = some (lab, lines.drop c2) ∧
              s.firstFlags.get? j = some (decide (c2 = 0)) := by
          intro j lab lines hSj
          by_cases hji : j = i
          · subst hji
            rw [hS] at hSj
            obtain ⟨rfl, rfl⟩ : lab0 = lab ∧ lines0 = lines := by
              exact ⟨congrArg Prod.fst (Option.some_inj.mp hSj),
                     congrArg Prod.snd (Option.some_inj.mp hSj)⟩
            refine ⟨c + 1, by omega, ?_, ?_⟩
            · rw [List.get?_set_eq_of_lt _ hsl, hrest]
            · rw [hflag]
              simp [hc0]
          · obtain ⟨c2, hc2, hr2, hf2⟩ := hidx j lab lines hSj
            exact ⟨c2, hc2, by rwa [List.get?_set_ne _ _ (fun h => hji h.symm)], hf2⟩
        refine ⟨hlen1, hflen, hidx1, ?_, ?_, ?_, ?_⟩
        · dsimp only
          rw [hfiredT]
          constructor
          · intro h; cases h
          · intro h
            exact absurd (h i lab0 lines0 hS) hne1
        · dsimp only
          have h1 : headerCount (s.emitted ++
              [StreamEvent.data lab0 (lab0 ++ strOf "  " ++ line)]) =
              headerCount s.emitted := by
            simp [headerCount, List.countP_append]
          rw [h1, hhc]
        · dsimp only
          have h1 : dataCount (s.emitted ++
              [StreamEvent.data lab0 (lab0 ++ strOf "  " ++ line)]) =
              dataCount s.emitted + 1 := by
            simp [dataCount, List.countP_append]
          rw [h1, hdc]
          omega
        · intro l hl
          dsimp only at hl
          rcases List.mem_append.mp hl with h | h
          · exact hhdr l h
          · simp at h

theorem streamInv_run (contextHeader : Str) (S : List (Str × List Str))
    (schedule : List Nat) :
    StreamInv contextHeader S (runStream contextHeader S schedule) := by
  suffices h : ∀ s, StreamInv contextHeader S s →
      StreamInv contextHeader S (schedule.foldl (streamStep contextHeader) s) from
    h _ (streamInv_start contextHeader S)
  induction schedule with
  | nil => exact fun s hs => hs
  | cons i rest ih =>
    exact fun s hs => ih _ (streamInv_step contextHeader S s i hs)

/-- C9: streaming header de-duplication.  For every collection of per-context
line streams and every interleaving schedule that drains them all through the
shared run-once gate, provided some stream produced a line at all: exactly one
unified header line is emitted — the `CONTEXT` label column followed by the
first line of whichever stream reached the gate first — and the number of
context-prefixed data lines is the sum over contexts of that context's line
count excluding its first line. -/
theorem streaming_header_dedup (contextHeader : Str)
    (streams : List (Str × List Str)) (schedule : List Nat)
    (hdone : ∀ p ∈ (runStream contextHeader streams schedule).streams, p.2 = ([] : List Str))
    (hsome : ∃ p ∈ streams, p.2 ≠ ([] : List Str)) :
    headerCount (runStream contextHeader streams schedule).emitted = 1 ∧
    dataCount (runStream contextHeader streams schedule).emitted =
      (streams.map (fun p => p.2.length - 1)).sum ∧
    (∀ l, StreamEvent.header l ∈ (runStream contextHeader streams schedule).emitted →
      ∃ lab lines l0, (lab, lines) ∈ streams ∧ lines.head? = some l0 ∧
        l = contextHeader ++ strOf "  " ++ l0) := by
  obtain ⟨hlen, hflen, hidx, hfired, hhc, hdc, hhdr⟩ :=
    streamInv_run contextHeader streams schedule
  have hf : (runStream contextHeader streams schedule).fired = true := by
    cases hft : (runStream contextHeader streams schedule).fired with
    | true => rfl
    | false =>
      obtain ⟨⟨lab, lines⟩, hmem, hne⟩ := hsome
      obtain ⟨j, hj⟩ := List.mem_iff_get?.mp hmem
      have hat := hfired.mp hft j lab lines hj
      have hmem2 : (lab, lines) ∈ (runStream contextHeader streams schedule).streams :=
        List.get?_mem hat
      exact absurd (hdone _ hmem2) hne
  refine ⟨?_, ?_, hhdr⟩
  · rw [hhc, hf]
    rfl
  · rw [hdc]
    exact sumDataTarget_final streams _ hlen hdone

/-- Witness for C9: two streams sharing a header schema, fully drained by an
alternating schedule, yield one header line and two data lines. -/
theorem streaming_header_dedup_witness :
    headerCount (runStream (strOf "CONTEXT")
        [(strOf "c1", [strOf "H", strOf "a"]), (strOf "c2", [strOf "H", strOf "b"])]
        [0, 1, 0, 1]).emitted = 1 ∧
    dataCount (runStream (strOf "CONTEXT")
        [(strOf "c1", [strOf "H", strOf "a"]), (strOf "c2", [strOf "H", strOf "b"])]
        [0, 1, 0, 1]).emitted = 2 := by
  have h := streaming_header_dedup (strOf "CONTEXT")
    [(strOf "c1", [strOf "H", strOf "a"]), (strOf "c2", [strOf "H", strOf "b"])]
    [0, 1, 0, 1] (by decide) (by decide)
  exact ⟨h.1, h.2.1⟩

/-! ### C8: error-flush ordering of the table aggregator -/

/-- C8: the table aggregator emits an errored context's diagnostic at the
point that context is processed in input order, which places it strictly
after the final table line whenever the errored context follows every
data-producing context.  At the failing input — one successful context
followed by one errored one — the emission order is header line (stdout),
data row (stdout), then the two diagnostic lines (stderr): the diagnostic is
flushed strictly after the final table, contrary to the claim and to the
repo's own `TestFormatDefaultOutputErrorsBeforeOutput`, which asserts the
diagnostic precedes the data row in combined output. -/
theorem error_flush_after_final_table :
    (formatDefaultOutput
        [{ context := strOf "ctx1", output := strOf "NAME    STATUS\npod1    Running",
           err := none },
         { context := strOf "ctx2", output := strOf "error message",
           err := some (strOf "connection failed") }]).map Prod.fst =
      [Channel.out, Channel.out, Channel.err, Channel.err] := by
  decide

/-! ### Structured aggregation: shared lemmas -/

theorem structured_foldl (parse : Str → Option JObj) (results : List ContextResult)
    (acc : List JObj × List Event) :
    results.foldl (structuredStep parse) acc =
      (acc.1 ++ results.flatMap (fun r => (structuredItemsFor parse r).1),
       acc.2 ++ results.flatMap (fun r => (structuredItemsFor parse r).2)) := by
  induction results generalizing acc with
  | nil => simp
  | cons r rest ih =>
    simp only [List.foldl_cons, ih, structuredStep, List.flatMap_cons, List.append_assoc]

theorem formatStructuredOutput_eq (parse : Str → Option JObj)
    (results : List ContextResult) :
    formatStructuredOutput parse results =
      ([(strOf "apiVersion", JVal.str (strOf "v1")),
        (strOf "kind", JVal.str (strOf "List")),
        (strOf "items", JVal.arr
          ((results.flatMap (fun r => (structuredItemsFor parse r).1)).map JVal.obj))],
       results.flatMap (fun r => (structuredItemsFor parse r).2)) := by
  simp only [formatStructuredOutput, structured_foldl, List.nil_append]

theorem itemsOf_formatStructuredOutput (parse : Str → Option JObj)
    (results : List ContextResult) :
    itemsOf (formatStructuredOutput parse results).1 =
      (results.flatMap (fun r => (structuredItemsFor parse r).1)).map JVal.obj := by
  rw [congrArg Prod.fst (formatStructuredOutput_eq parse results)]
  rfl

/-- `o[k] = v` makes a later `o[k]` read back `v`. -/
theorem lookupKey_setKey_self (o : JObj) (k : Str) (v : JVal) :
    lookupKey (setKey o k v) k = some v := by
  induction o with
  | nil => simp [setKey, lookupKey, List.find?]
  | cons p rest ih =>
    by_cases hp : p.1 = k
    · simp [setKey, List.any_cons, hp, lookupKey, List.find?]
    · by_cases hr : rest.any (fun q => q.1 = k)
      · have ih2 := ih
        simp only [setKey, hr, if_true, lookupKey] at ih2
        simp [setKey, List.any_cons, hp, hr, lookupKey, List.find?] at ih2 ⊢
        exact ih2
      · have ih2 := ih
        simp only [setKey, hr, if_false, lookupKey] at ih2
        simp [setKey, List.any_cons, hp, hr, lookupKey, List.find?] at ih2 ⊢
        exact ih2

/-- A decoder fixture for the concrete examples below.  It agrees with
`json.Unmarshal` (and `yaml.Unmarshal`) on the documents used: the empty
object, a one-field object without `metadata`, a two-element `items` list,
and a decode error on anything else. -/
def demoParse (s : Str) : Option JObj :=
  if s = strOf "\x7b\x7d" then some []
  else if s = strOf "\x7b\"name\":\"pod1\"\x7d" then
    some [(strOf "name", JVal.str (strOf "pod1"))]
  else if s = strOf "\x7b\"items\":[\x7b\"metadata\":\x7b\"name\":\"p1\"\x7d\x7d,\x7b\"metadata\":\x7b\"name\":\"p2\"\x7d\x7d]\x7d" then
    some [(strOf "items", JVal.arr
      [JVal.obj [(strOf "metadata", JVal.obj [(strOf "name", JVal.str (strOf "p1"))])],
       JVal.obj [(strOf "metadata", JVal.obj [(strOf "name", JVal.str (strOf "p2"))])]])]
  else none

/-! ### C2: structured-aggregation failure policy -/

/-- C2: structured-aggregation failure policy.  The combined document's items
and the stderr diagnostics are the concatenation of per-context
contributions; a context with no process error whose output fails to decode
contributes nothing to `items` and is reported once on the error channel; a
context whose runner recorded an error but whose (non-empty) output still
decodes is included as one item carrying `context` and an `error` field set
to the failure's message. -/
theorem structured_failure_policy (parse : Str → Option JObj)
    (results : List ContextResult) :
    itemsOf (formatStructuredOutput parse results).1 =
      (results.flatMap (fun r => (structuredItemsFor parse r).1)).map JVal.obj
    ∧ (formatStructuredOutput parse results).2 =
      results.flatMap (fun r => (structuredItemsFor parse r).2)
    ∧ (∀ r ∈ results, r.err = none → parse r.output = none →
        (structuredItemsFor parse r).1 = [] ∧
        (structuredItemsFor parse r).2 =
          [(Channel.err, strOf "Context " ++ r.context ++ strOf ": Failed to parse")])
    ∧ (∀ r ∈ results, ∀ e obj, r.err = some e → r.output ≠ [] →
        parse r.output = some obj →
        (structuredItemsFor parse r).1 =
          [setKey (setKey obj (strOf "context") (JVal.str r.context))
            (strOf "error") (JVal.str e)]) := by
  refine ⟨itemsOf_formatStructuredOutput parse results,
    congrArg Prod.snd (formatStructuredOutput_eq parse results), ?_, ?_⟩
  · intro r _ herr hparse
    constructor <;> simp [structuredItemsFor, herr, hparse]
  · intro r _ e obj herr hout hparse
    simp [structuredItemsFor, herr, hout, hparse]

/-- Witness for C2: a context with undecodable output contributes nothing;
an errored context whose output decodes to the empty object contributes one
item with the `context` and `error` fields. -/
theorem structured_failure_policy_witness :
    (structuredItemsFor demoParse
        { context := strOf "c1", output := strOf "notjson", err := none }).1 = []
    ∧ (structuredItemsFor demoParse
        { context := strOf "c2", output := strOf "\x7b\x7d", err := some (strOf "boom") }).1 =
      [[(strOf "context", JVal.str (strOf "c2")),
        (strOf "error", JVal.str (strOf "boom"))]] := by
  have h := structured_failure_policy demoParse
    [{ context := strOf "c1", output := strOf "notjson", err := none },
     { context := strOf "c2", output := strOf "\x7b\x7d", err := some (strOf "boom") }]
  refine ⟨(h.2.2.1
    { context := strOf "c1", output := strOf "notjson", err := none }
    (by simp) rfl rfl).1, ?_⟩
  have h2 := h.2.2.2
    { context := strOf "c2", output := strOf "\x7b\x7d", err := some (strOf "boom") }
    (by simp) (strOf "boom") [] rfl (by decide) rfl
  exact h2

/-! ### C3: errored contexts in table and structured output -/

theorem buildOutputs_mono (results : List ContextResult)
    (st : List OutputData × Nat) (d : OutputData) (hd : d ∈ st.1) :
    d ∈ (results.foldl buildStep st).1 := by
  induction results generalizing st with
  | nil => exact hd
  | cons r rest ih =>
    apply ih
    unfold buildStep
    cases r.err with
    | some e => exact List.mem_append_left _ hd
    | none =>
      dsimp only
      split
      · exact hd
      · split
        · exact hd
        · exact List.mem_append_left _ hd

theorem buildOutputs_foldl_err_mem (results : List ContextResult)
    (st : List OutputData × Nat) :
    ∀ r ∈ results, ∀ e, r.err = some e →
      ({ context := r.context, lines := [], columns := [], err := some e,
         errMsg := r.output } : OutputData) ∈ (results.foldl buildStep st).1 := by
  induction results generalizing st with
  | nil => intro r hr; cases hr
  | cons q rest ih =>
    intro r hr e he
    rcases List.mem_cons.mp hr with rfl | hr2
    · rw [List.foldl_cons]
      apply buildOutputs_mono
      unfold buildStep
      rw [he]
      exact List.mem_append_right _ (List.mem_singleton.mpr rfl)
    · rw [List.foldl_cons]
      exact ih _ r hr2 e he

/-- The `Output:` diagnostic line never coincides with a `Context ...: Error:`
diagnostic line: their first characters differ. -/
theorem output_line_ne_error_line (a b : Str) :
    (strOf "Output: " ++ a) ≠ (strOf "Context " ++ b) := by
  intro h
  have := congrArg (fun l => List.head? l) h
  simp [strOf] at this

/-- C3 counterexample: an errored context whose output still decodes (here to
the empty object) contributes one item to the structured output, not zero. -/
theorem errored_context_counterexample :
    (itemsOf (formatStructuredOutput demoParse
        [{ context := strOf "c2", output := strOf "\x7b\x7d",
           err := some (strOf "boom") }]).1).length = 1 := by
  rfl

/-- C3 (amended): a context whose result carries a non-nil error contributes
zero rows to the table output — its `allOutputs` record renders only stderr
events, among them exactly one `Context <name>: Error: <msg>` diagnostic —
and contributes zero items to the structured output exactly when its output
is empty or fails to decode (otherwise exactly one item, the decoded object
tagged with `context` and `error`); its structured-mode diagnostic is also
emitted exactly once. -/
theorem errored_context_contribution (parse : Str → Option JObj)
    (results : List ContextResult) :
    (∀ r ∈ results, ∀ e, r.err = some e →
      ({ context := r.context, lines := [], columns := [], err := some e,
         errMsg := r.output } : OutputData) ∈ (buildOutputs results).1)
    ∧ (∀ (w : Nat) (m : Nat → Nat) (hf : Bool) (d : OutputData) (e : Str),
        d.err = some e →
        (renderData w m hf d).countP (fun ev => ev.1 = Channel.out) = 0 ∧
        (renderData w m hf d).countP (fun ev => ev = (Channel.err,
          strOf "Context " ++ d.context ++ strOf ": Error: " ++ e)) = 1)
    ∧ (∀ r ∈ results, ∀ e, r.err = some e →
        ((structuredItemsFor parse r).1 = [] ↔
          (r.output = [] ∨ parse r.output = none)) ∧
        (structuredItemsFor parse r).2 =
          [(Channel.err, strOf "Context " ++ r.context ++ strOf ": Error: " ++ e)]) := by
  refine ⟨fun r hr e he => buildOutputs_foldl_err_mem results _ r hr e he, ?_, ?_⟩
  · intro w m hf d e he
    constructor
    · simp only [renderData, he]
      by_cases hmsg : d.errMsg = []
      · simp [hmsg]
      · simp [hmsg, List.countP_cons]
    · simp only [renderData, he]
      by_cases hmsg : d.errMsg = []
      · simp [hmsg, List.countP_cons]
      · have hne2 : ¬ (strOf "Output: " ++ d.errMsg =
            strOf "Context " ++ (d.context ++ (strOf ": Error: " ++ e))) :=
          output_line_ne_error_line d.errMsg (d.context ++ (strOf ": Error: " ++ e))
        simp [hmsg, List.countP_cons, hne2]
  · intro r _ e he
    constructor
    · constructor
      · intro hempty
        by_cases hout : r.output = []
        · exact Or.inl hout
        · refine Or.inr ?_
          cases hparse : parse r.output with
          | none => rfl
          | some obj =>
            rw [show (structuredItemsFor parse r).1 =
              [setKey (setKey obj (strOf "context") (JVal.str r.context))
                (strOf "error") (JVal.str e)] from by
                simp [structuredItemsFor, he, hout, hparse]] at hempty
            cases hempty
      · intro hcase
        rcases hcase with hout | hparse
        · simp [structuredItemsFor, he, hout]
        · by_cases hout : r.output = []
          · simp [structuredItemsFor, he, hout]
          · simp [structuredItemsFor, he, hout, hparse]
    · by_cases hout : r.output = []
      · simp [structuredItemsFor, he, hout]
      · cases hparse : parse r.output with
        | none => simp [structuredItemsFor, he, hout, hparse]
        | some obj => simp [structuredItemsFor, he, hout, hparse]

/-- Witness for C3 (amended) at a concrete errored context. -/
theorem errored_context_contribution_witness :
    (renderData 7 (fun _ => 0) false
        { context := strOf "c2", lines := [], columns := [],
          err := some (strOf "boom"), errMsg := strOf "detail" }
        ).countP (fun ev => ev.1 = Channel.out) = 0
    ∧ ((structuredItemsFor demoParse
        { context := strOf "c2", output := ([] : Str),
          err := some (strOf "boom") }).1 = [] ↔
        ((([] : Str) = []) ∨ demoParse [] = none)) := by
  have h := errored_context_contribution demoParse
    [{ context := strOf "c2", output := ([] : Str), err := some (strOf "boom") }]
  refine ⟨?_, ?_⟩
  · exact (h.2.1 7 (fun _ => 0) false
      { context := strOf "c2", lines := [], columns := [],
        err := some (strOf "boom"), errMsg := strOf "detail" }
      (strOf "boom") rfl).1
  · exact (h.2.2
      { context := strOf "c2", output := ([] : Str), err := some (strOf "boom") }
      (by simp) (strOf "boom") rfl).1

/-! ### C6: structured-output shape and order -/

/-- C6 counterexample: a context whose output decodes to a single object with
no `metadata` sub-object is tagged at top level — no `metadata` sub-object is
created, so its element does not carry the context tag in `metadata`. -/
theorem structured_metadata_counterexample :
    itemsOf (formatStructuredOutput demoParse
        [{ context := strOf "ctx1", output := strOf "\x7b\"name\":\"pod1\"\x7d",
           err := none }]).1 =
      [JVal.obj [(strOf "name", JVal.str (strOf "pod1")),
                 (strOf "context", JVal.str (strOf "ctx1"))]]
    ∧ lookupKey [(strOf "name", JVal.str (strOf "pod1")),
                 (strOf "context", JVal.str (strOf "ctx1"))] (strOf "metadata") = none := by
  exact ⟨rfl, rfl⟩

/-- C6 (amended): the combined document is
`{apiVersion: "v1", kind: "List", items}` with `items` the concatenation of
per-context contributions in input order.  For a successfully decoded
context: the elements of its `items` array contribute in their own order,
each object element carrying the context tag injected into its `metadata`
sub-object (created if absent, overwritten if present, non-object elements
dropped); a document without an `items` array contributes itself, tagged in
its `metadata` sub-object when that is an object, else by a top-level
`context` field.  Every injected element reads back its tag from
`metadata.context`. -/
theorem structured_merge_order (parse : Str → Option JObj)
    (results : List ContextResult) :
    (formatStructuredOutput parse results).1 =
      [(strOf "apiVersion", JVal.str (strOf "v1")),
       (strOf "kind", JVal.str (strOf "List")),
       (strOf "items", JVal.arr
         ((results.flatMap (fun r => (structuredItemsFor parse r).1)).map JVal.obj))]
    ∧ (∀ r ∈ results, r.err = none → ∀ data, parse r.output = some data →
        (∀ elems, lookupKey data (strOf "items") = some (JVal.arr elems) →
          (structuredItemsFor parse r).1 = elems.filterMap (fun item =>
            match item with
            | JVal.obj itemMap => some (injectMeta itemMap r.context)
            | _ => none))
        ∧ (lookupKey data (strOf "items") = none →
            (structuredItemsFor parse r).1 =
              [match lookupKey data (strOf "metadata") with
               | some (JVal.obj m) => setKey data (strOf "metadata")
                   (JVal.obj (setKey m (strOf "context") (JVal.str r.context)))
               | _ => setKey data (strOf "context") (JVal.str r.context)]))
    ∧ (∀ (itemMap : JObj) (c : Str), ∃ m2,
        lookupKey (injectMeta itemMap c) (strOf "metadata") = some (JVal.obj m2) ∧
        lookupKey m2 (strOf "context") = some (JVal.str c)) := by
  refine ⟨congrArg Prod.fst (formatStructuredOutput_eq parse results), ?_, ?_⟩
  · intro r _ herr data hparse
    constructor
    · intro elems hitems
      simp only [structuredItemsFor, herr, hparse, hitems]
    · intro hitems
      cases hmeta : lookupKey data (strOf "metadata") with
      | none => simp [structuredItemsFor, herr, hparse, hitems, hmeta]
      | some v =>
        cases v with
        | obj m => simp [structuredItemsFor, herr, hparse, hitems, hmeta]
        | null => simp [structuredItemsFor, herr, hparse, hitems, hmeta]
        | bool b => simp [structuredItemsFor, herr, hparse, hitems, hmeta]
        | num n => simp [structuredItemsFor, herr, hparse, hitems, hmeta]
        | str s => simp [structuredItemsFor, herr, hparse, hitems, hmeta]
        | arr elems => simp [structuredItemsFor, herr, hparse, hitems, hmeta]
  · intro itemMap c
    unfold injectMeta
    cases hmeta : lookupKey itemMap (strOf "metadata") with
    | none =>
      exact ⟨[(strOf "context", JVal.str c)],
        lookupKey_setKey_self itemMap _ _, rfl⟩
    | some v =>
      cases v with
      | obj m =>
        exact ⟨setKey m (strOf "context") (JVal.str c),
          lookupKey_setKey_self itemMap _ _,
          lookupKey_setKey_self m _ _⟩
      | null =>
        exact ⟨[(strOf "context", JVal.str c)],
          lookupKey_setKey_self itemMap _ _, rfl⟩
      | bool b =>
        exact ⟨[(strOf "context", JVal.str c)],
          lookupKey_setKey_self itemMap _ _, rfl⟩
      | num n =>
        exact ⟨[(strOf "context", JVal.str c)],
          lookupKey_setKey_self itemMap _ _, rfl⟩
      | str s =>
        exact ⟨[(strOf "context", JVal.str c)],
          lookupKey_setKey_self itemMap _ _, rfl⟩
      | arr elems =>
        exact ⟨[(strOf "context", JVal.str c)],
          lookupKey_setKey_self itemMap _ _, rfl⟩

/-- Witness for C6 (amended): two contexts — one contributing a two-element
`items` array, one a single object — merge in input order with per-context
element order preserved. -/
theorem structured_merge_order_witness :
    (formatStructuredOutput demoParse
        [{ context := strOf "cA",
           output := strOf "\x7b\"items\":[\x7b\"metadata\":\x7b\"name\":\"p1\"\x7d\x7d,\x7b\"metadata\":\x7b\"name\":\"p2\"\x7d\x7d]\x7d",
           err := none },
         { context := strOf "cB", output := strOf "\x7b\x7d", err := none }]).1 =
      [(strOf "apiVersion", JVal.str (strOf "v1")),
       (strOf "kind", JVal.str (strOf "List")),
       (strOf "items", JVal.arr
         [JVal.obj [(strOf "metadata", JVal.obj
            [(strOf "name", JVal.str (strOf "p1")),
             (strOf "context", JVal.str (strOf "cA"))])],
          JVal.obj [(strOf "metadata", JVal.obj
            [(strOf "name", JVal.str (strOf "p2")),
             (strOf "context", JVal.str (strOf "cA"))])],
          JVal.obj [(strOf "context", JVal.str (strOf "cB"))]])] := by
  have h := structured_merge_order demoParse
    [{ context := strOf "cA",
       output := strOf "\x7b\"items\":[\x7b\"metadata\":\x7b\"name\":\"p1\"\x7d\x7d,\x7b\"metadata\":\x7b\"name\":\"p2\"\x7d\x7d]\x7d",
       err := none },
     { context := strOf "cB", output := strOf "\x7b\x7d", err := none }]
  exact h.1

/-! ### Table aggregator: string and maximum lemmas -/

theorem dropWhile_head_not (p : Char → Bool) (l : List Char) (c : Char)
    (h : (l.dropWhile p).head? = some c) : p c = false := by
  induction l with
  | nil => simp at h
  | cons a t ih =>
    by_cases hp : p a
    · rw [List.dropWhile_cons_of_pos hp] at h
      exact ih h
    · rw [List.dropWhile_cons_of_neg hp] at h
      simp only [List.head?_cons, Option.some_inj] at h
      subst h
      simpa using hp

theorem dropWhile_idem (p : Char → Bool) (l : List Char) :
    (l.dropWhile p).dropWhile p = l.dropWhile p := by
  cases hd : l.dropWhile p with
  | nil => simp
  | cons c t =>
    have hc : p c = false := dropWhile_head_not p l c (by rw [hd]; rfl)
    rw [List.dropWhile_cons]
    simp [hc]

theorem back_trimmed_prefix (p : Char → Bool) (l : List Char) :
    ∃ t, l = (l.reverse.dropWhile p).reverse ++ t := by
  obtain ⟨u, hu⟩ := List.dropWhile_suffix (l := l.reverse) p
  refine ⟨u.reverse, ?_⟩
  have h2 : l = (u ++ l.reverse.dropWhile p).reverse := by
    rw [hu, List.reverse_reverse]
  rw [List.reverse_append] at h2
  exact h2

theorem trimSpace_head_not (s : Str) (c : Char)
    (h : (trimSpace s).head? = some c) : goIsSpace c = false := by
  obtain ⟨t, ht⟩ := back_trimmed_prefix goIsSpace (s.dropWhile goIsSpace)
  have hts : trimSpace s ++ t = s.dropWhile goIsSpace := by
    rw [trimSpace] at h ⊢
    exact ht.symm
  cases htr : trimSpace s with
  | nil => rw [htr] at h; simp at h
  | cons c2 rest =>
    rw [htr] at h hts
    simp only [List.head?_cons, Option.some_inj] at h
    have hh : (s.dropWhile goIsSpace).head? = some c2 := by
      rw [← hts]
      rfl
    have hpc := dropWhile_head_not goIsSpace s c2 hh
    rwa [h] at hpc

theorem trimSpace_idem (s : Str) : trimSpace (trimSpace s) = trimSpace s := by
  have hfront : (trimSpace s).dropWhile goIsSpace = trimSpace s := by
    cases hd : trimSpace s with
    | nil => simp
    | cons c t =>
      have hc := trimSpace_head_not s c (by rw [hd]; rfl)
      rw [List.dropWhile_cons]
      simp [hc]
  have hback : (trimSpace s).reverse.dropWhile goIsSpace = (trimSpace s).reverse := by
    have h2 : (trimSpace s).reverse =
        ((s.dropWhile goIsSpace).reverse).dropWhile goIsSpace := by
      rw [trimSpace, List.reverse_reverse]
    rw [h2]
    exact dropWhile_idem goIsSpace _
  conv_lhs => rw [trimSpace, hfront, hback, List.reverse_reverse]

theorem parseColumns_mem (line : Str) (c : Str) (hc : c ∈ parseColumns line) :
    trimSpace c = c ∧ c ≠ [] := by
  unfold parseColumns at hc
  rw [List.mem_filter] at hc
  obtain ⟨hmem, hne⟩ := hc
  rw [List.mem_map] at hmem
  obtain ⟨x, _, rfl⟩ := hmem
  exact ⟨trimSpace_idem x, by simpa using hne⟩

theorem splitNL_ne_nil (s : Str) : splitNL s ≠ [] := by
  cases s with
  | nil => simp [splitNL]
  | cons c rest =>
    unfold splitNL
    split <;> split <;> simp

/-- The maximum of a list of naturals, zero when empty. -/
def maxList (l : List Nat) : Nat := l.foldl max 0

theorem foldl_max_init (l : List Nat) (a : Nat) : l.foldl max a = max a (maxList l) := by
  induction l generalizing a with
  | nil => simp [maxList]
  | cons x t ih =>
    simp only [maxList, List.foldl_cons] at *
    rw [ih (max a x), ih (max 0 x)]
    omega

theorem le_maxList (l : List Nat) (x : Nat) (h : x ∈ l) : x ≤ maxList l := by
  induction l with
  | nil => cases h
  | cons y t ih =>
    have hm : maxList (y :: t) = max (max 0 y) (maxList t) := by
      simp only [maxList, List.foldl_cons]
      exact foldl_max_init t (max 0 y)
    rcases List.mem_cons.mp h with rfl | h2
    · omega
    · have := ih h2
      omega

theorem maxList_append (l1 l2 : List Nat) :
    maxList (l1 ++ l2) = max (maxList l1) (maxList l2) := by
  simp only [maxList, List.foldl_append]
  exact foldl_max_init l2 (l1.foldl max 0)

/-- The width a single row contributes at column index `j`: the trimmed length
of its `j`-th column when that is non-empty, else zero. -/
def rowWidth (row : List Str) (j : Nat) : Nat :=
  match row.get? j with
  | some col =>
    let trimmed := trimSpace col
    if trimmed = [] then 0 else trimmed.length
  | none => 0

theorem bumpRowAux_eq (row : List Str) :
    ∀ (m : Nat → Nat) (k j : Nat),
      bumpRowAux m k row j = max (m j) (if k ≤ j then rowWidth row (j - k) else 0) := by
  induction row with
  | nil =>
    intro m k j
    simp [bumpRowAux, rowWidth]
  | cons col rest ih =>
    intro m k j
    simp only [bumpRowAux]
    rw [ih]
    by_cases hC : trimSpace col ≠ [] ∧ m k < (trimSpace col).length
    · rw [if_pos hC]
      by_cases hjk : j = k
      · subst hjk
        rw [if_neg (by omega : ¬ (j + 1 ≤ j)), if_pos (le_refl j), Nat.sub_self]
        have hrw : rowWidth (col :: rest) 0 =
            (if trimSpace col = [] then 0 else (trimSpace col).length) := rfl
        rw [hrw, if_neg hC.1, if_pos rfl]
        have := hC.2
        omega
      · rw [if_neg hjk]
        by_cases hkj : k ≤ j
        · rw [if_pos (by omega : k + 1 ≤ j), if_pos hkj,
            show j - k = (j - (k + 1)) + 1 from by omega]
          rfl
        · rw [if_neg (by omega : ¬ (k + 1 ≤ j)), if_neg hkj]
    · rw [if_neg hC]
      by_cases hjk : j = k
      · subst hjk
        rw [if_neg (by omega : ¬ (j + 1 ≤ j)), if_pos (le_refl j), Nat.sub_self]
        have hrw : rowWidth (col :: rest) 0 =
            (if trimSpace col = [] then 0 else (trimSpace col).length) := rfl
        rw [hrw]
        by_cases ht : trimSpace col = []
        · rw [if_pos ht]
        · rw [if_neg ht]
          have hle : (trimSpace col).length ≤ m j := by
            by_contra hlt
            exact hC ⟨ht, by omega⟩
          omega
      · by_cases hkj : k ≤ j
        · rw [if_pos (by omega : k + 1 ≤ j), if_pos hkj,
            show j - k = (j - (k + 1)) + 1 from by omega]
          rfl
        · rw [if_neg (by omega : ¬ (k + 1 ≤ j)), if_neg hkj]

theorem bumpRow_eq (m : Nat → Nat) (row : List Str) (j : Nat) :
    bumpRow m row j = max (m j) (rowWidth row j) := by
  rw [bumpRow, bumpRowAux_eq]
  simp

theorem foldl_bumpRow_eq (rows : List (List Str)) :
    ∀ (m : Nat → Nat) (j : Nat),
      (rows.foldl bumpRow m) j =
        max (m j) (maxList (rows.map (fun row => rowWidth row j))) := by
  induction rows with
  | nil =>
    intro m j
    simp [maxList]
  | cons row rest ih =>
    intro m j
    simp only [List.foldl_cons, List.map_cons]
    rw [ih, bumpRow_eq]
    have hm : maxList (rowWidth row j :: rest.map (fun r => rowWidth r j)) =
        max (max 0 (rowWidth row j)) (maxList (rest.map (fun r => rowWidth r j))) := by
      simp only [maxList, List.foldl_cons]
      exact foldl_max_init _ _
    rw [hm]
    omega

/-- The rows the width computation scans, in scan order: the header row (when
found) and then, for every non-errored context, its rows from `startIdx` on —
exactly the rows that are also rendered. -/
def countedRows (headerFound : Bool) (headerColumns : List Str)
    (allOutputs : List OutputData) : List (List Str) :=
  (if headerFound then [headerColumns] else []) ++
    (allOutputs.filter (fun d => d.err.isNone)).flatMap
      (fun d => d.columns.drop (startIdx headerFound d))

theorem foldl_widthStep_eq (hf : Bool) (allOutputs : List OutputData) :
    ∀ (m : Nat → Nat) (j : Nat),
      (allOutputs.foldl (widthStep hf) m) j =
        max (m j) (maxList (((allOutputs.filter (fun d => d.err.isNone)).flatMap
          (fun d => d.columns.drop (startIdx hf d))).map (fun row => rowWidth row j))) := by
  induction allOutputs with
  | nil =>
    intro m j
    simp [maxList]
  | cons d rest ih =>
    intro m j
    simp only [List.foldl_cons, widthStep, List.filter_cons]
    cases he : d.err with
    | some e =>
      simp only [Option.isSome_some, if_true, Option.isNone_some, Bool.false_eq_true,
        if_false]
      exact ih m j
    | none =>
      simp only [Option.isSome_none, Bool.false_eq_true, if_false, Option.isNone_none,
        if_true]
      rw [ih]
      have hfold := foldl_bumpRow_eq (d.columns.drop (startIdx hf d)) m j
      rw [hfold]
      simp only [List.flatMap_cons, List.map_append, maxList_append]
      omega

theorem computeWidths_eq (hf : Bool) (hcols : List Str) (allOutputs : List OutputData)
    (j : Nat) :
    computeWidths hf hcols allOutputs j =
      maxList ((countedRows hf hcols allOutputs).map (fun row => rowWidth row j)) := by
  unfold computeWidths countedRows
  rw [foldl_widthStep_eq]
  cases hf with
  | false => simp [maxList]
  | true =>
    simp only [if_true, List.singleton_append, List.map_cons]
    rw [bumpRow_eq]
    have hm : maxList (rowWidth hcols j :: (((allOutputs.filter (fun d => d.err.isNone)).flatMap
        (fun d => d.columns.drop (startIdx true d))).map (fun row => rowWidth row j))) =
        max (max 0 (rowWidth hcols j)) (maxList (((allOutputs.filter (fun d => d.err.isNone)).flatMap
          (fun d => d.columns.drop (startIdx true d))).map (fun row => rowWidth row j))) := by
      simp only [maxList, List.foldl_cons]
      exact foldl_max_init _ _
    rw [hm]

/-- Whether a result takes part in the `maxContextWidth` computation: it is
errored, or it has non-empty trimmed output. -/
def contextWidthPred (r : ContextResult) : Bool :=
  r.err.isSome || decide (trimSpace r.output ≠ [])

theorem buildOutputs_foldl_snd (results : List ContextResult) :
    ∀ st : List OutputData × Nat,
      (results.foldl buildStep st).2 =
        max st.2 (maxList ((results.filter contextWidthPred).map
          (fun r => r.context.length))) := by
  induction results with
  | nil =>
    intro st
    simp [maxList]
  | cons r rest ih =>
    intro st
    simp only [List.foldl_cons, List.filter_cons]
    have hmaxcons : ∀ (l : List Nat) (x : Nat),
        maxList (x :: l) = max (max 0 x) (maxList l) := by
      intro l x
      simp only [maxList, List.foldl_cons]
      exact foldl_max_init l (max 0 x)
    cases he : r.err with
    | some e =>
      have hpred : contextWidthPred r = true := by
        simp [contextWidthPred, he]
      simp only [hpred, if_true, List.map_cons, hmaxcons]
      have hstep : buildStep st r =
          (st.1 ++ [{ context := r.context, lines := [], columns := [],
                      err := some e, errMsg := r.output }],
           max st.2 r.context.length) := by
        simp [buildStep, he]
      rw [hstep, ih]
      simp only []
      omega
    | none =>
      by_cases htrim : trimSpace r.output = []
      · have hpred : contextWidthPred r = false := by
          simp [contextWidthPred, he, htrim]
        have hstep : buildStep st r = st := by
          simp [buildStep, he, htrim]
        simp only [hpred, Bool.false_eq_true, if_false, hstep]
        exact ih st
      · have hpred : contextWidthPred r = true := by
          simp [contextWidthPred, he, htrim]
        have hlen : ¬ ((splitNL (trimSpace r.output)).length = 0) := by
          rw [List.length_eq_zero]
          exact splitNL_ne_nil _
        have hstep : (buildStep st r).2 = max st.2 r.context.length := by
          simp only [buildStep, he]
          rw [if_neg htrim, if_neg hlen]
        simp only [hpred, if_true, List.map_cons, hmaxcons]
        rw [ih, hstep]
        omega

theorem buildStep_snd_le (st : List OutputData × Nat) (r : ContextResult) :
    st.2 ≤ (buildStep st r).2 := by
  cases he : r.err with
  | some e => simp [buildStep, he]
  | none =>
    by_cases htrim : trimSpace r.output = []
    · simp [buildStep, he, htrim]
    · have hlen : ¬ ((splitNL (trimSpace r.output)).length = 0) := by
        rw [List.length_eq_zero]
        exact splitNL_ne_nil _
      simp only [buildStep, he]
      rw [if_neg htrim, if_neg hlen]
      simp

theorem foldl_buildStep_snd_le (results : List ContextResult) :
    ∀ st : List OutputData × Nat, st.2 ≤ (results.foldl buildStep st).2 := by
  induction results with
  | nil => intro st; exact le_refl _
  | cons r rest ih =>
    intro st
    exact le_trans (buildStep_snd_le st r) (ih (buildStep st r))

theorem buildOutputs_ctx_le (results : List ContextResult) :
    ∀ st : List OutputData × Nat, (∀ d ∈ st.1, d.context.length ≤ st.2) →
      ∀ d ∈ (results.foldl buildStep st).1,
        d.context.length ≤ (results.foldl buildStep st).2 := by
  induction results with
  | nil => intro st h; exact h
  | cons r rest ih =>
    intro st h
    simp only [List.foldl_cons]
    apply ih
    intro d hd
    cases he : r.err with
    | some e =>
      simp only [buildStep, he] at hd ⊢
      rcases List.mem_append.mp hd with h1 | h1
      · exact le_trans (h d h1) (le_max_left _ _)
      · rw [List.mem_singleton] at h1
        subst h1
        simp
    | none =>
      by_cases htrim : trimSpace r.output = []
      · have hstep : buildStep st r = st := by simp [buildStep, he, htrim]
        rw [hstep] at hd ⊢
        exact h d hd
      · have hlen : ¬ ((splitNL (trimSpace r.output)).length = 0) := by
          rw [List.length_eq_zero]
          exact splitNL_ne_nil _
        have hstep : buildStep st r =
            (st.1 ++ [{ context := r.context, lines := splitNL (trimSpace r.output),
                        columns := (splitNL (trimSpace r.output)).map (fun line =>
                          let trimmed := trimSpace line
                          if trimmed = [] then [] else parseColumns trimmed),
                        err := none, errMsg := [] }],
             max st.2 r.context.length) := by
          simp only [buildStep, he]
          rw [if_neg htrim, if_neg hlen]
        rw [hstep] at hd ⊢
        rcases List.mem_append.mp hd with h1 | h1
        · exact le_trans (h d h1) (le_max_left _ _)
        · rw [List.mem_singleton] at h1
          subst h1
          simp

/-- Every row of a first-pass record is either the nil slice (a blank line) or
the parsed columns of some trimmed line. -/
def goodRows (d : OutputData) : Prop :=
  ∀ row ∈ d.columns, row = [] ∨ ∃ t, row = parseColumns t

theorem buildOutputs_goodRows (results : List ContextResult) :
    ∀ st : List OutputData × Nat, (∀ d ∈ st.1, goodRows d) →
      ∀ d ∈ (results.foldl buildStep st).1, goodRows d := by
  induction results with
  | nil => intro st h; exact h
  | cons r rest ih =>
    intro st h
    simp only [List.foldl_cons]
    apply ih
    intro d hd
    cases he : r.err with
    | some e =>
      simp only [buildStep, he] at hd
      rcases List.mem_append.mp hd with h1 | h1
      · exact h d h1
      · rw [List.mem_singleton] at h1
        subst h1
        intro row hrow
        cases hrow
    | none =>
      by_cases htrim : trimSpace r.output = []
      · have hstep : buildStep st r = st := by simp [buildStep, he, htrim]
        rw [hstep] at hd
        exact h d hd
      · have hlen : ¬ ((splitNL (trimSpace r.output)).length = 0) := by
          rw [List.length_eq_zero]
          exact splitNL_ne_nil _
        have hstep : buildStep st r =
            (st.1 ++ [{ context := r.context, lines := splitNL (trimSpace r.output),
                        columns := (splitNL (trimSpace r.output)).map (fun line =>
                          let trimmed := trimSpace line
                          if trimmed = [] then [] else parseColumns trimmed),
                        err := none, errMsg := [] }],
             max st.2 r.context.length) := by
          simp only [buildStep, he]
          rw [if_neg htrim, if_neg hlen]
        rw [hstep] at hd
        rcases List.mem_append.mp hd with h1 | h1
        · exact h d h1
        · rw [List.mem_singleton] at h1
          subst h1
          intro row hrow
          simp only [List.mem_map] at hrow
          obtain ⟨line, _, hrow⟩ := hrow
          by_cases ht : trimSpace line = []
          · left
            rw [← hrow]
            simp [ht]
          · right
            refine ⟨trimSpace line, ?_⟩
            rw [← hrow]
            simp [ht]

/-! ### C10: totality of the table aggregator -/

/-- The `Int` value Go passes to `strings.Repeat` for each column of one row
in `formatColumns` (`width - len(col)` after the zero-width fallback), in loop
order; `strings.Repeat` panics exactly when this is negative. -/
def padCountsRowAux (m : Nat → Nat) (i : Nat) : List Str → List Int
  | [] => []
  | col :: rest =>
    let width : Nat := if m i = 0 then col.length else m i
    ((width : Int) - (col.length : Int)) :: padCountsRowAux m (i + 1) rest

/-- The pad counts of one rendered row. -/
def padCountsRow (m : Nat → Nat) (row : List Str) : List Int := padCountsRowAux m 0 row

/-- Every count `formatDefaultOutput` hands to `strings.Repeat`, in emission
order: the header's context padding and column pads (when a header was
found), and per non-errored context its context padding and the column pads
of each non-empty rendered row. -/
def padCountsOf (results : List ContextResult) : List Int :=
  let st := buildOutputs results
  let hdr := headerOf st.1
  let m := computeWidths hdr.isSome (hdr.getD []) st.1
  (if hdr.isSome then
    ((st.2 : Int) - ((strOf "CONTEXT").length : Int)) :: padCountsRow m (hdr.getD [])
   else []) ++
  st.1.flatMap (fun d =>
    match d.err with
    | some _ => []
    | none =>
      ((st.2 : Int) - (d.context.length : Int)) ::
        (d.columns.drop (startIdx hdr.isSome d)).flatMap (fun row =>
          if row.length = 0 then [] else padCountsRow m row))

theorem padCountsRowAux_nonneg (m : Nat → Nat) (row : List Str) :
    ∀ k : Nat,
      (∀ i col, row.get? i = some col → col.length ≤ m (k + i) ∨ m (k + i) = 0) →
      ∀ x ∈ padCountsRowAux m k row, 0 ≤ x := by
  induction row with
  | nil =>
    intro k _ x hx
    cases hx
  | cons col rest ih =>
    intro k hbound x hx
    simp only [padCountsRowAux, List.mem_cons] at hx
    rcases hx with rfl | hx2
    · have h0 := hbound 0 col rfl
      by_cases hm : m (k + 0) = 0
      · rw [show k = k + 0 from rfl, hm]
        simp
      · rcases h0 with hle | h0
        · rw [show k = k + 0 from rfl, if_neg hm]
          omega
        · exact absurd h0 hm
    · refine ih (k + 1) ?_ x hx2
      intro i col2 hcol2
      have := hbound (i + 1) col2 (by simpa using hcol2)
      rw [show k + 1 + i = k + (i + 1) from by omega]
      exact this

theorem col_le_computeWidths (hf : Bool) (hcols : List Str) (A : List OutputData)
    (row : List Str) (hrow : row ∈ countedRows hf hcols A)
    (hgood : ∃ t, row = parseColumns t) (j : Nat) (col : Str)
    (hcol : row.get? j = some col) :
    col.length ≤ computeWidths hf hcols A j := by
  rw [computeWidths_eq]
  have hmem : rowWidth row j ∈ (countedRows hf hcols A).map (fun r => rowWidth r j) :=
    List.mem_map.mpr ⟨row, hrow, rfl⟩
  have hle := le_maxList _ _ hmem
  obtain ⟨t, rfl⟩ := hgood
  have hcolm := parseColumns_mem t col (List.get?_mem hcol)
  have hrw : rowWidth (parseColumns t) j = col.length := by
    simp only [rowWidth, hcol]
    rw [hcolm.1, if_neg hcolm.2]
  omega

theorem rendered_mem_counted (hf : Bool) (hcols : List Str) (A : List OutputData)
    (d : OutputData) (hd : d ∈ A) (he : d.err = none) (row : List Str)
    (hrow : row ∈ d.columns.drop (startIdx hf d)) :
    row ∈ countedRows hf hcols A := by
  unfold countedRows
  apply List.mem_append_right
  exact List.mem_flatMap.mpr ⟨d, List.mem_filter.mpr ⟨hd, by simp [he]⟩, hrow⟩

theorem headerOf_spec (A : List OutputData) (hcols : List Str)
    (h : headerOf A = some hcols) :
    ∃ d ∈ A, d.err.isNone = true ∧ 1 < d.columns.length ∧
      0 < (d.columns.headI).length ∧ hcols = d.columns.headI := by
  unfold headerOf at h
  cases hf : A.find? (fun d => d.err.isNone && decide (1 < d.columns.length) &&
      decide (0 < (d.columns.headI).length)) with
  | none => rw [hf] at h; cases h
  | some d =>
    rw [hf] at h
    have hmem := List.mem_of_find?_eq_some hf
    have hpred := List.find?_some hf
    simp only [Bool.and_eq_true, decide_eq_true_eq] at hpred
    exact ⟨d, hmem, hpred.1.1, hpred.1.2, hpred.2, (Option.some_inj.mp h).symm⟩

/-- C10: totality of the table aggregator.  Every padding count
`formatDefaultOutput` computes — each column's shared width minus the
rendered value's length, and the context-column width minus each rendered
context name's length — is non-negative, so no call to `strings.Repeat` can
panic and `formatDefaultOutput` always returns nil. -/
theorem table_padding_nonneg (results : List ContextResult) :
    ∀ x ∈ padCountsOf results, 0 ≤ x := by
  intro x hx
  unfold padCountsOf at hx
  have hsnd : (buildOutputs results).2 = (results.foldl buildStep
      ([], (strOf "CONTEXT").length)).2 := rfl
  have hinit : (strOf "CONTEXT").length ≤ (buildOutputs results).2 := by
    rw [hsnd]
    exact foldl_buildStep_snd_le results ([], (strOf "CONTEXT").length)
  have hgoodAll : ∀ d ∈ (buildOutputs results).1, goodRows d :=
    buildOutputs_goodRows results ([], (strOf "CONTEXT").length)
      (fun d hd => absurd hd (List.not_mem_nil d))
  have hctxle : ∀ d ∈ (buildOutputs results).1,
      d.context.length ≤ (buildOutputs results).2 :=
    buildOutputs_ctx_le results ([], (strOf "CONTEXT").length)
      (fun d hd => absurd hd (List.not_mem_nil d))
  rcases List.mem_append.mp hx with hhd | hfm
  · -- header part
    cases hhdr : (headerOf (buildOutputs results).1) with
    | none =>
      rw [hhdr] at hhd
      simp at hhd
    | some hcols =>
      rw [hhdr] at hhd
      simp only [Option.isSome_some, if_true, List.mem_cons] at hhd
      rcases hhd with rfl | hrow
      · omega
      · obtain ⟨d, hdmem, hderr, hdlen, hdhd, hdcols⟩ :=
          headerOf_spec _ _ hhdr
        have hgoodd := hgoodAll d hdmem
        have hheadcol : hcols ∈ d.columns := by
          rw [hdcols]
          cases hc : d.columns with
          | nil => rw [hc] at hdlen; simp at hdlen
          | cons a rest => exact List.mem_cons_self a rest
        have hgood : ∃ t, hcols = parseColumns t := by
          rcases hgoodd hcols hheadcol with hnil | hg
          · rw [← hdcols, hnil] at hdhd
            simp at hdhd
          · exact hg
        have hcnt : hcols ∈ countedRows true hcols (buildOutputs results).1 := by
          unfold countedRows
          exact List.mem_append_left _ (List.mem_singleton.mpr rfl)
        refine padCountsRowAux_nonneg _ hcols 0 ?_ x
          (by simpa [padCountsRow, hhdr] using hrow)
        intro i col hcol
        left
        have := col_le_computeWidths true hcols (buildOutputs results).1 hcols
          hcnt hgood i col hcol
        simpa [hhdr, Nat.zero_add] using this
  · -- per-context part
    obtain ⟨d, hdmem, hxin⟩ := List.mem_flatMap.mp hfm
    cases he : d.err with
    | some e =>
      rw [he] at hxin
      cases hxin
    | none =>
      rw [he] at hxin
      simp only [List.mem_cons] at hxin
      rcases hxin with rfl | hrows
      · have := hctxle d hdmem
        omega
      · obtain ⟨row, hrowmem, hxrow⟩ := List.mem_flatMap.mp hrows
        by_cases hlen : row.length = 0
        · rw [if_pos hlen] at hxrow
          cases hxrow
        · rw [if_neg hlen] at hxrow
          have hgood : ∃ t, row = parseColumns t := by
            rcases hgoodAll d hdmem row (List.mem_of_mem_drop hrowmem) with hnil | hg
            · rw [hnil] at hlen
              simp at hlen
            · exact hg
          have hcnt := rendered_mem_counted (headerOf (buildOutputs results).1).isSome
            ((headerOf (buildOutputs results).1).getD []) (buildOutputs results).1
            d hdmem he row hrowmem
          refine padCountsRowAux_nonneg _ row 0 ?_ x hxrow
          intro i col hcol
          left
          have := col_le_computeWidths _ _ _ row hcnt hgood i col hcol
          simpa [Nat.zero_add] using this

/-- Witness for C10 at a concrete batch: the header's context padding count. -/
theorem table_padding_nonneg_witness :
    (0 : Int) ∈ padCountsOf
        [{ context := strOf "ctx1", output := strOf "NAME  STATUS\npod1  Run",
           err := none }] ∧
    (0 : Int) ≤ 0 :=
  ⟨by decide, table_padding_nonneg
    [{ context := strOf "ctx1", output := strOf "NAME  STATUS\npod1  Run",
       err := none }] 0 (by decide)⟩

/-! ### C5: shared column widths -/

/-- C5 counterexample: a context with empty output is excluded from the
context-column width even though its name is the longest, so the rendered
line is padded to the seven-character floor, not to the longest context
name. -/
theorem shared_column_widths_counterexample :
    (buildOutputs [{ context := strOf "very-long-context-name", output := [],
                     err := none },
                   { context := strOf "c", output := strOf "x  y", err := none }]).2 = 7
    ∧ max (strOf "CONTEXT").length
        (maxList (([{ context := strOf "very-long-context-name", output := ([] : Str),
                      err := none },
                    { context := strOf "c", output := strOf "x  y",
                      err := none }] : List ContextResult).map
          (fun r => r.context.length))) = 22
    ∧ formatDefaultOutput [{ context := strOf "very-long-context-name", output := [],
                             err := none },
                           { context := strOf "c", output := strOf "x  y", err := none }] =
        [(Channel.out, strOf "c        x    y")] := by
  refine ⟨by decide, by decide, by decide⟩

/-- C5 (amended): the context column's width is the maximum name length over
contexts that errored or produced non-empty output (not over all contexts),
floored at `len("CONTEXT")`; each column's shared width is the maximum
trimmed length observed at that index over the header row and the rendered
data rows; each rendered column is padded to exactly that shared width (its
own length where the width map is zero); columns are joined with the fixed
four-space separator and each line is right-trimmed. -/
theorem shared_column_widths (results : List ContextResult) :
    (buildOutputs results).2 =
      max (strOf "CONTEXT").length
        (maxList ((results.filter contextWidthPred).map (fun r => r.context.length)))
    ∧ (∀ j, computeWidths (headerOf (buildOutputs results).1).isSome
          ((headerOf (buildOutputs results).1).getD []) (buildOutputs results).1 j =
        maxList ((countedRows (headerOf (buildOutputs results).1).isSome
          ((headerOf (buildOutputs results).1).getD []) (buildOutputs results).1).map
            (fun row => rowWidth row j)))
    ∧ (∀ (m : Nat → Nat) (i : Nat) (col : Str),
        (padCol m i col).length = if m i = 0 then col.length else max (m i) col.length)
    ∧ (∀ (m : Nat → Nat) (row : List Str),
        formatColumns m row =
          trimRightSpaces (List.intercalate (strOf "    ") (formatColsAux m 0 row))) := by
  refine ⟨?_, ?_, ?_, fun m row => rfl⟩
  · exact buildOutputs_foldl_snd results ([], (strOf "CONTEXT").length)
  · intro j
    exact computeWidths_eq _ _ _ j
  · intro m i col
    by_cases hm : m i = 0
    · simp [padCol, hm]
    · simp only [padCol, if_neg hm, List.length_append, List.length_replicate]
      omega

/-- Witness for C5 at the repo's own test fixture: the context column width
equals the longest participating context name. -/
theorem shared_column_widths_witness :
    (buildOutputs [{ context := strOf "short", output := strOf "NAME  STATUS\npod1  Running",
                     err := none },
                   { context := strOf "very-long-context-name",
                     output := strOf "NAME  STATUS\npod2  Pending", err := none }]).2 = 22 := by
  have h := shared_column_widths
    [{ context := strOf "short", output := strOf "NAME  STATUS\npod1  Running",
       err := none },
     { context := strOf "very-long-context-name",
       output := strOf "NAME  STATUS\npod2  Pending", err := none }]
  rw [h.1]
  decide

/-! ### C4: table header detection -/

theorem find?_first_spec {α : Type} (p : α → Bool) :
    ∀ (l : List α) (a : α), l.find? p = some a →
      ∃ i, l.get? i = some a ∧ p a = true ∧
        ∀ j b, j < i → l.get? j = some b → p b = false := by
  intro l
  induction l with
  | nil => intro a h; cases h
  | cons x t ih =>
    intro a h
    by_cases hp : p x
    · rw [List.find?_cons_of_pos _ hp] at h
      obtain rfl : x = a := Option.some_inj.mp h
      exact ⟨0, rfl, hp, fun j b hj => absurd hj (by omega)⟩
    · rw [List.find?_cons_of_neg _ (by simpa using hp)] at h
      obtain ⟨i, hget, hpa, hprior⟩ := ih a h
      refine ⟨i + 1, hget, hpa, ?_⟩
      intro j b hj hgetj
      cases j with
      | zero =>
        obtain rfl : x = b := Option.some_inj.mp hgetj
        simpa using hp
      | succ j2 =>
        exact hprior j2 b (by omega) hgetj

theorem filterMap_row_length (f : List Str → Event) (rows : List (List Str)) :
    (rows.filterMap (fun row => if row.length = 0 then none else some (f row))).length =
      (rows.filter (fun row => decide (row ≠ []))).length := by
  induction rows with
  | nil => rfl
  | cons row rest ih =>
    simp only [List.filterMap_cons, List.filter_cons]
    by_cases h : row.length = 0
    · have hnil : row = [] := List.length_eq_zero.mp h
      rw [if_pos h]
      simp only [List.length_eq_zero] at ih ⊢
      simp [hnil, ih]
    · have hne : row ≠ [] := fun hn => h (by simp [hn])
      rw [if_neg h]
      simp only [List.length_eq_zero] at ih ⊢
      simp [hne, ih]

/-- C4 counterexample: at the first input the only context's first line has a
single column, yet a header is still detected (and printed) because the
context has more than one *line*; at the second input a header is found, yet
the single-line context `c2` does not have its first line skipped — it is
rendered as data. -/
theorem header_detection_counterexample :
    (parseColumns (trimSpace (strOf "A"))).length = 1
    ∧ formatDefaultOutput [{ context := strOf "c1", output := strOf "A\nB", err := none }] =
        [(Channel.out, strOf "CONTEXT  A"), (Channel.out, strOf "c1       B")]
    ∧ formatDefaultOutput [{ context := strOf "c1", output := strOf "H1  H2\nr1  r2",
                             err := none },
                           { context := strOf "c2", output := strOf "x1  x2", err := none }] =
        [(Channel.out, strOf "CONTEXT  H1    H2"),
         (Channel.out, strOf "c1       r1    r2"),
         (Channel.out, strOf "c2       x1    x2")] := by
  refine ⟨by decide, by decide, by decide⟩

/-- C4 (amended): the header row is the first line of the *first* non-errored
record with more than one parsed line (its first row of columns is non-empty
for every record the first pass builds); header detection succeeds exactly
when such a record exists; and when a header was found the first line is
skipped — for width computation and rendering alike — only for contexts with
more than one parsed line, a single-line context's line being rendered as
data. -/
theorem header_detection (results : List ContextResult) :
    (∀ hcols, headerOf (buildOutputs results).1 = some hcols →
      ∃ i d, (buildOutputs results).1.get? i = some d ∧
        (d.err.isNone && decide (1 < d.columns.length) &&
          decide (0 < (d.columns.headI).length)) = true ∧
        hcols = d.columns.headI ∧
        ∀ j d2, j < i → (buildOutputs results).1.get? j = some d2 →
          (d2.err.isNone && decide (1 < d2.columns.length) &&
            decide (0 < (d2.columns.headI).length)) = false)
    ∧ (headerOf (buildOutputs results).1 = none ↔
        ∀ d ∈ (buildOutputs results).1,
          ¬ ((d.err.isNone && decide (1 < d.columns.length) &&
              decide (0 < (d.columns.headI).length)) = true))
    ∧ (∀ (w : Nat) (m : Nat → Nat) (hf : Bool) (d : OutputData), d.err = none →
        (renderData w m hf d).length =
          ((d.columns.drop (if hf ∧ 1 < d.columns.length then 1 else 0)).filter
            (fun row => decide (row ≠ []))).length)
    ∧ (∀ (hf : Bool) (d : OutputData),
        startIdx hf d = if hf ∧ 1 < d.columns.length then 1 else 0) := by
  refine ⟨?_, ?_, ?_, fun hf d => rfl⟩
  · intro hcols h
    unfold headerOf at h
    cases hfind : (buildOutputs results).1.find? (fun d => d.err.isNone &&
        decide (1 < d.columns.length) && decide (0 < (d.columns.headI).length)) with
    | none => rw [hfind] at h; cases h
    | some d =>
      rw [hfind] at h
      obtain ⟨i, hget, hpa, hprior⟩ := find?_first_spec _ _ d hfind
      exact ⟨i, d, hget, hpa, (Option.some_inj.mp h).symm, hprior⟩
  · constructor
    · intro h d hd hpred
      unfold headerOf at h
      cases hfind : (buildOutputs results).1.find? (fun d => d.err.isNone &&
          decide (1 < d.columns.length) && decide (0 < (d.columns.headI).length)) with
      | none => exact (List.find?_eq_none.mp hfind d hd) hpred
      | some d2 =>
        rw [hfind] at h
        simp at h
    · intro hall
      unfold headerOf
      cases hfind : (buildOutputs results).1.find? (fun d => d.err.isNone &&
          decide (1 < d.columns.length) && decide (0 < (d.columns.headI).length)) with
      | none => rfl
      | some d2 =>
        exact absurd (List.find?_some hfind)
          (hall d2 (List.mem_of_find?_eq_some hfind))
  · intro w m hf d he
    simp only [renderData, he]
    exact filterMap_row_length _ _

/-- Witness for C4 at a concrete single-line context with a header present:
its one line is rendered as data, not skipped. -/
theorem header_detection_witness :
    (renderData 7 (fun _ => 0) true
        { context := strOf "c2", lines := [strOf "x1  x2"],
          columns := [[strOf "x1", strOf "x2"]], err := none, errMsg := [] }).length = 1 := by
  have h := (header_detection
    [{ context := strOf "c2", output := strOf "x1  x2", err := none }]).2.2.1
    7 (fun _ => 0) true
    { context := strOf "c2", lines := [strOf "x1  x2"],
      columns := [[strOf "x1", strOf "x2"]], err := none, errMsg := [] } rfl
  rw [h]
  decide

end KubectlX
